import Mathlib

/-!
Verification of the i2g-operator Ingress-to-Gateway translation controller.

The Rust sources are shallowly embedded: pure helpers become Lean
functions, the Kubernetes API is an explicit read-only environment
(`ClusterEnv`), and the reconcile loop threads an explicit list of the
write operations it performed.  Machine integers (`i32` weights, port
numbers) are modelled as `Int`; `Option`/`Result` become
`Option`/`Except`.
-/

namespace I2G

/-! ## String helpers (src/utils.rs and std string methods used by the code) -/

/-- The character class matched by the regex `[a-zA-Z0-9]`
(`[^a-zA-Z0-9]+` is its complement). -/
def isAlnumAscii (c : Char) : Bool :=
  ('a' ≤ c && c ≤ 'z') || ('A' ≤ c && c ≤ 'Z') || ('0' ≤ c && c ≤ '9')

/-- `Regex::replace_all` with pattern `[^a-zA-Z0-9]+` and replacement `-`:
each maximal run of non-alphanumeric characters becomes a single `'-'`.
The flag records whether the previous character belonged to such a run. -/
def collapseRuns : Bool → List Char → List Char
  | _, [] => []
  | inRun, c :: cs =>
    if isAlnumAscii c then c :: collapseRuns false cs
    else if inRun then collapseRuns true cs
    else '-' :: collapseRuns true cs

/-- Rust `str::trim`: drop leading and trailing whitespace characters. -/
def trimWs (l : List Char) : List Char :=
  ((l.dropWhile Char.isWhitespace).reverse.dropWhile Char.isWhitespace).reverse

/-- Rust `str::trim_start_matches("-")` followed by
`str::trim_end_matches("-")`: drop every leading and trailing `'-'`. -/
def trimDashes (l : List Char) : List Char :=
  ((l.dropWhile (· == '-')).reverse.dropWhile (· == '-')).reverse

/-- `utils::sanitize_hostname`. -/
def sanitize_hostname (hostname : String) : String :=
  let sanitized_str := collapseRuns false hostname.data
  let res := trimDashes (trimWs sanitized_str)
  if res = [] ∨ res = ['*'] then "all-hosts" else ⟨res⟩

/-- The sanitizer as the spec words it: replace every maximal run of
non-alphanumeric characters with a single `-`, trim leading/trailing `-`,
and fall back to `all-hosts` when the result is empty or `*`.  (The code
additionally calls `str::trim`, which is a no-op because the collapsed
string contains no whitespace.) -/
def sanitize_hostname_spec (hostname : String) : String :=
  let res := trimDashes (collapseRuns false hostname.data)
  if res = [] ∨ res = ['*'] then "all-hosts" else ⟨res⟩

theorem collapseRuns_mem {b : Bool} {l : List Char} {c : Char}
    (h : c ∈ collapseRuns b l) : isAlnumAscii c = true ∨ c = '-' := by
  induction l generalizing b with
  | nil => simp [collapseRuns] at h
  | cons d ds ih =>
    by_cases hd : isAlnumAscii d
    · simp [collapseRuns, hd] at h
      rcases h with h | h
      · exact Or.inl (h ▸ hd)
      · exact ih h
    · cases b with
      | true =>
        simp [collapseRuns, hd] at h
        exact ih h
      | false =>
        simp [collapseRuns, hd] at h
        rcases h with h | h
        · exact Or.inr h
        · exact ih h

theorem alnum_not_ws {c : Char} (h : isAlnumAscii c = true) :
    c.isWhitespace = false := by
  cases hw : c.isWhitespace
  · rfl
  · exfalso
    have hc : ((c = ' ' ∨ c = '\t') ∨ c = '\x0d') ∨ c = '\n' := by
      simpa [Char.isWhitespace] using hw
    rcases hc with ((rfl | rfl) | rfl) | rfl <;> exact absurd h (by decide)

theorem not_ws_of_collapseRuns {b : Bool} {l : List Char} {c : Char}
    (h : c ∈ collapseRuns b l) : c.isWhitespace = false := by
  rcases collapseRuns_mem h with ha | ha
  · exact alnum_not_ws ha
  · subst ha
    decide

theorem dropWhile_ws_of_noWs {l : List Char}
    (h : ∀ c ∈ l, c.isWhitespace = false) :
    l.dropWhile Char.isWhitespace = l := by
  rw [List.dropWhile_eq_self_iff]
  intro hx hmem
  have hfalse := h _ (List.mem_iff_get.mpr ⟨⟨0, hx⟩, rfl⟩)
  rw [hfalse] at hmem
  exact Bool.noConfusion hmem

theorem trimWs_of_noWs {l : List Char} (h : ∀ c ∈ l, c.isWhitespace = false) :
    trimWs l = l := by
  unfold trimWs
  rw [dropWhile_ws_of_noWs h,
    dropWhile_ws_of_noWs (fun c hc => h c (List.mem_reverse.mp hc)),
    List.reverse_reverse]

theorem sanitize_hostname_eq_spec (s : String) :
    sanitize_hostname s = sanitize_hostname_spec s := by
  simp only [sanitize_hostname, sanitize_hostname_spec]
  rw [trimWs_of_noWs (fun c hc => not_ws_of_collapseRuns hc)]

/-- Claim C7: `sanitize_hostname` replaces each maximal run of
non-alphanumeric characters with a single `-`, trims leading and trailing
`-`, and returns `"all-hosts"` when the result is empty or `"*"`
(equality with the literal spec-worded sanitizer), and in particular
`"foo.bar.com" ↦ "foo-bar-com"`, `"*" ↦ "all-hosts"`, `"" ↦ "all-hosts"`,
`"-foo-" ↦ "foo"`. -/
theorem C7_sanitize_hostname :
    (∀ s : String, sanitize_hostname s = sanitize_hostname_spec s) ∧
    sanitize_hostname "foo.bar.com" = "foo-bar-com" ∧
    sanitize_hostname "*" = "all-hosts" ∧
    sanitize_hostname "" = "all-hosts" ∧
    sanitize_hostname "-foo-" = "foo" :=
  ⟨sanitize_hostname_eq_spec, by decide, by decide, by decide, by decide⟩

/-! ## Match rules (src/value_filters.rs) -/

/-- `value_filters::MatchType`. -/
inductive MatchType where
  | Equal
  | RegularExpression
deriving DecidableEq

/-- `value_filters::MatchRule`. -/
structure MatchRule where
  key : String
  value : String
  match_type : MatchType
deriving DecidableEq

/-- `value_filters::MatcherList`. -/
structure MatcherList where
  rules : List MatchRule
deriving DecidableEq

/-- `value_filters::HeadersMatchersList`. -/
structure HeadersMatchersList where
  list : MatcherList
deriving DecidableEq

/-- `value_filters::QueryMatchersList`. -/
structure QueryMatchersList where
  list : MatcherList
deriving DecidableEq

/-- `str::split_once('=')`: split at the first `'='`, which is dropped. -/
def splitOnceEq : List Char → Option (List Char × List Char)
  | [] => none
  | c :: cs =>
    if c = '=' then some ([], cs)
    else (splitOnceEq cs).map (fun p => (c :: p.1, p.2))

/-- `MatchRule::from_str` (the `FromStr` impl): `key=value` parses as an
`Equal` rule, `key~=value` as a `RegularExpression` rule (trailing `~`
stripped from the key); a string without `'='` is an error. -/
def MatchRule.from_str (rule : String) : Except String MatchRule :=
  match splitOnceEq rule.data with
  | some (key, value) =>
    if key.getLast? = some '~' then
      .ok { key := ⟨key.dropLast⟩, value := ⟨value⟩,
            match_type := .RegularExpression }
    else
      .ok { key := ⟨key⟩, value := ⟨value⟩, match_type := .Equal }
  | none => .error "Invalid rule found"

/-- `str::parse::<i32>()`: optional single `+`/`-` sign followed by at
least one ASCII digit, rejected when the value overflows `i32`. -/
def parse_i32 (s : String) : Option Int :=
  match s.data with
  | [] => none
  | c :: rest =>
    let (sign, digits) : Int × List Char :=
      if c = '+' then (1, rest)
      else if c = '-' then (-1, rest)
      else (1, c :: rest)
    if digits = [] then none
    else if digits.all Char.isDigit then
      let n : Int := sign *
        (digits.foldl (fun acc d => acc * 10 + (d.toNat - '0'.toNat)) 0 : Nat)
      if -(2 ^ 31) ≤ n ∧ n ≤ 2 ^ 31 - 1 then some n else none
    else none

/-- Rust `"a/b/c".split("/").last()`: the piece after the last `'/'`
(the whole string when there is no `'/'`). -/
def lastSlashPiece (s : String) : String :=
  ⟨(s.data.reverse.takeWhile (· ≠ '/')).reverse⟩

/-- Rust `str::starts_with`. -/
def strStartsWith (s pre : String) : Bool :=
  pre.data.isPrefixOf s.data

/-- The filter-and-parse loop of `MatcherList::from_annotations`: keep the
entries whose key starts with the prefix, parse the weight from the key
suffix after the last `'/'` (silently dropping the entry on failure) and
the rule from the value (logging and dropping the entry on failure).
The `BTreeMap` is modelled as an association list in ascending key order,
matching its iteration order. -/
def collectWeighted (anns : List (String × String)) (pre : String) :
    List (Int × MatchRule) :=
  anns.filterMap (fun kv =>
    if strStartsWith kv.1 pre then
      match parse_i32 (lastSlashPiece kv.1) with
      | none => none
      | some weight =>
        match MatchRule.from_str kv.2 with
        | .ok rule => some (weight, rule)
        | .error _ => none
    else none)

/-- Stable insertion used to model `Vec::sort_by` comparing weights
(`sort_by` is a stable sort): the new element goes before the first
element of strictly larger weight, hence after earlier equal weights. -/
def insertWeighted (x : Int × MatchRule) :
    List (Int × MatchRule) → List (Int × MatchRule)
  | [] => [x]
  | y :: ys => if y.1 < x.1 then y :: insertWeighted x ys else x :: y :: ys

/-- Stable sort of the weighted rules by weight. -/
def sortWeighted (l : List (Int × MatchRule)) : List (Int × MatchRule) :=
  l.foldr insertWeighted []

/-- `MatcherList::from_annotations` before the final projection that
drops the weights. -/
def from_annotations_weighted (anns : List (String × String))
    (pre : String) : List (Int × MatchRule) :=
  sortWeighted (collectWeighted anns pre)

/-- `MatcherList::from_annotations`. -/
def MatcherList.from_annotations (anns : List (String × String))
    (pre : String) : MatcherList :=
  ⟨(from_annotations_weighted anns pre).map Prod.snd⟩

/-- An annotation entry that contributes to the output: its key carries
the prefix and a parseable weight, and its value parses as a rule. -/
def goodEntry (pre : String) (kv : String × String) : Bool :=
  !(strStartsWith kv.1 pre) ||
    ((parse_i32 (lastSlashPiece kv.1)).isSome &&
      (MatchRule.from_str kv.2).isOk)

theorem collectWeighted_filter (anns : List (String × String)) (pre : String) :
    collectWeighted (anns.filter (goodEntry pre)) pre =
      collectWeighted anns pre := by
  induction anns with
  | nil => rfl
  | cons kv rest ih =>
    by_cases hs : strStartsWith kv.1 pre
    · cases hw : parse_i32 (lastSlashPiece kv.1) with
      | none =>
        have hg : goodEntry pre kv = false := by
          simp [goodEntry, hs, hw]
        simp [collectWeighted, List.filter_cons, hg, hs, hw] at ih ⊢
        exact ih
      | some w =>
        cases hr : MatchRule.from_str kv.2 with
        | error e =>
          have hg : goodEntry pre kv = false := by
            simp [goodEntry, hs, hw, hr, Except.isOk, Except.toBool]
          simp [collectWeighted, List.filter_cons, hg, hs, hw, hr] at ih ⊢
          exact ih
        | ok rule =>
          have hg : goodEntry pre kv = true := by
            simp [goodEntry, hs, hw, hr, Except.isOk, Except.toBool]
          simp [collectWeighted, List.filter_cons, hg, hs, hw, hr] at ih ⊢
          exact ih
    · have hg : goodEntry pre kv = true := by simp [goodEntry, hs]
      simp [collectWeighted, List.filter_cons, hg, hs] at ih ⊢
      exact ih

theorem insertWeighted_sorted {l : List (Int × MatchRule)}
    (h : l.Pairwise (fun a b => a.1 ≤ b.1)) (x : Int × MatchRule) :
    (insertWeighted x l).Pairwise (fun a b => a.1 ≤ b.1) := by
  induction l with
  | nil => simp [insertWeighted]
  | cons y ys ih =>
    rw [List.pairwise_cons] at h
    by_cases hy : y.1 < x.1
    · rw [insertWeighted, if_pos hy, List.pairwise_cons]
      refine ⟨?_, ih h.2⟩
      intro a ha
      -- every element of the insertion is `x` or an old element of `ys`
      have hmem : a = x ∨ a ∈ ys := by
        clear ih h
        induction ys with
        | nil => simpa [insertWeighted] using ha
        | cons z zs ihz =>
          rw [insertWeighted] at ha
          by_cases hz : z.1 < x.1
          · rw [if_pos hz] at ha
            rcases List.mem_cons.mp ha with rfl | ha'
            · exact Or.inr (List.mem_cons_self _ _)
            · rcases ihz ha' with h' | h'
              · exact Or.inl h'
              · exact Or.inr (List.mem_cons_of_mem _ h')
          · rw [if_neg hz] at ha
            rcases List.mem_cons.mp ha with rfl | ha'
            · exact Or.inl rfl
            · exact Or.inr ha'
      rcases hmem with rfl | ha'
      · exact le_of_lt hy
      · exact h.1 a ha'
    · rw [insertWeighted, if_neg hy, List.pairwise_cons]
      constructor
      · intro a ha
        rcases List.mem_cons.mp ha with rfl | ha'
        · exact le_of_not_lt hy
        · exact le_trans (le_of_not_lt hy) (h.1 a ha')
      · exact List.pairwise_cons.mpr h

theorem sortWeighted_sorted (l : List (Int × MatchRule)) :
    (sortWeighted l).Pairwise (fun a b => a.1 ≤ b.1) := by
  induction l with
  | nil => simp [sortWeighted]
  | cons x xs ih => exact insertWeighted_sorted ih x

/-- Claim C4 fails as stated: two distinct keys (`"p/01"` and `"p/1"`)
parse to the same weight `1`, so the output of `from_annotations` is not
sorted *strictly* ascending by weight. -/
theorem C4_counterexample :
    from_annotations_weighted [("p/01", "a=b"), ("p/1", "c=d")] "p/" =
      [(1, ⟨"a", "b", .Equal⟩), (1, ⟨"c", "d", .Equal⟩)] ∧
    ¬ List.Pairwise (fun a b : Int × MatchRule => a.1 < b.1)
        (from_annotations_weighted [("p/01", "a=b"), ("p/1", "c=d")] "p/") := by
  constructor
  · decide
  · intro h
    have := List.pairwise_cons.mp
      (by rw [show from_annotations_weighted [("p/01", "a=b"), ("p/1", "c=d")] "p/" =
          [((1 : Int), MatchRule.mk "a" "b" .Equal), (1, ⟨"c", "d", .Equal⟩)] from by decide] at h; exact h)
    exact absurd (this.1 _ (List.mem_cons_self _ _)) (by decide)

/-- Claim C4 (amended): `from_annotations` returns the parsed entries
sorted ascending — not strictly, since distinct keys may carry equal
weights — by the numeric weight parsed after the last `'/'` of the key,
and entries with an unparseable weight suffix or a malformed value are
silently dropped: removing them from the input leaves the output
unchanged. -/
theorem C4_from_annotations_sorted (anns : List (String × String))
    (pre : String) :
    (from_annotations_weighted anns pre).Pairwise (fun a b => a.1 ≤ b.1) ∧
    MatcherList.from_annotations anns pre =
      ⟨(from_annotations_weighted anns pre).map Prod.snd⟩ ∧
    MatcherList.from_annotations (anns.filter (goodEntry pre)) pre =
      MatcherList.from_annotations anns pre := by
  refine ⟨sortWeighted_sorted _, rfl, ?_⟩
  unfold MatcherList.from_annotations from_annotations_weighted
  rw [collectWeighted_filter]

/-! ## Grouping and cartesian product (src/value_filters.rs) -/

/-- One step of `HashMap::entry(key).or_insert(vec![]).push(item)` on an
association list: append to the existing group of the key, or add a new
group at the end. -/
def insertGrouped (gs : List (String × List MatchRule)) (r : MatchRule) :
    List (String × List MatchRule) :=
  match gs with
  | [] => [(r.key, [r])]
  | (k, v) :: rest =>
    if k = r.key then (k, v ++ [r]) :: rest
    else (k, v) :: insertGrouped rest r

/-- The grouping map built by `MatcherList::make_groups`, keys included.
`HashMap` iteration order is unspecified in Rust; the model fixes it to
first-insertion order of the keys. -/
def MatcherList.groups_assoc (ml : MatcherList) :
    List (String × List MatchRule) :=
  ml.rules.foldl insertGrouped []

/-- `MatcherList::make_groups` (`groups.into_values()`). -/
def MatcherList.make_groups (ml : MatcherList) : List (List MatchRule) :=
  ml.groups_assoc.map Prod.snd

/-- `permutator::cartesian_product` over a list of groups, in its
iteration order: the first axis varies slowest and one element is drawn
from each group.  (Applied by the source only to non-empty group lists.) -/
def cartProd {α : Type} : List (List α) → List (List α)
  | [] => [[]]
  | g :: gs => g.flatMap (fun x => (cartProd gs).map (fun rest => x :: rest))

/-- `MatcherList::catesian_product` (sic). -/
def MatcherList.catesian_product (ml : MatcherList) : List (List MatchRule) :=
  let groups := ml.make_groups
  if groups = [] then [] else cartProd groups

theorem mem_cartProd {α : Type} {gs : List (List α)} {sel : List α}
    (h : sel ∈ cartProd gs) : List.Forall₂ (fun g x => x ∈ g) gs sel := by
  induction gs generalizing sel with
  | nil =>
    simp [cartProd] at h
    subst h
    exact List.Forall₂.nil
  | cons g rest ih =>
    rw [cartProd, List.mem_flatMap] at h
    obtain ⟨x, hx, hsel⟩ := h
    rw [List.mem_map] at hsel
    obtain ⟨tail, htail, rfl⟩ := hsel
    exact List.Forall₂.cons hx (ih htail)

/-- Invariant of the grouping accumulator: every group is tagged with the
common key of its members, groups are non-empty, and keys are distinct. -/
def GroupsInv (gs : List (String × List MatchRule)) : Prop :=
  (∀ p ∈ gs, p.2 ≠ [] ∧ ∀ r ∈ p.2, r.key = p.1) ∧
    (gs.map Prod.fst).Nodup

theorem insertGrouped_keys (gs : List (String × List MatchRule))
    (r : MatchRule) :
    (insertGrouped gs r).map Prod.fst = gs.map Prod.fst ∨
      (insertGrouped gs r).map Prod.fst = gs.map Prod.fst ++ [r.key] := by
  induction gs with
  | nil => simp [insertGrouped]
  | cons p rest ih =>
    obtain ⟨k, v⟩ := p
    by_cases hk : k = r.key
    · simp [insertGrouped, hk]
    · rcases ih with h | h <;>
        simp [insertGrouped, hk, h]

theorem insertGrouped_inv {gs : List (String × List MatchRule)}
    (h : GroupsInv gs) (r : MatchRule) : GroupsInv (insertGrouped gs r) := by
  induction gs with
  | nil =>
    constructor
    · intro p hp
      simp [insertGrouped] at hp
      subst hp
      exact ⟨by simp, by simp⟩
    · simp [insertGrouped]
  | cons q rest ih =>
    obtain ⟨k, v⟩ := q
    obtain ⟨hmem, hnodup⟩ := h
    rw [List.map_cons, List.nodup_cons] at hnodup
    by_cases hk : k = r.key
    · rw [GroupsInv]
      rw [insertGrouped, if_pos hk]
      constructor
      · intro p hp
        rcases List.mem_cons.mp hp with rfl | hp'
        · have hv := hmem (k, v) (List.mem_cons_self _ _)
          refine ⟨by simp, ?_⟩
          intro x hx
          rcases List.mem_append.mp hx with hx' | hx'
          · exact hv.2 x hx'
          · simp at hx'
            subst hx'
            exact hk.symm
        · exact hmem p (List.mem_cons_of_mem _ hp')
      · rw [List.map_cons, List.nodup_cons]
        exact hnodup
    · have hrest : GroupsInv rest :=
        ⟨fun p hp => hmem p (List.mem_cons_of_mem _ hp), hnodup.2⟩
      obtain ⟨ih1, ih2⟩ := ih hrest
      rw [GroupsInv]
      rw [insertGrouped, if_neg hk]
      constructor
      · intro p hp
        rcases List.mem_cons.mp hp with rfl | hp'
        · exact hmem (k, v) (List.mem_cons_self _ _)
        · exact ih1 p hp'
      · rw [List.map_cons, List.nodup_cons]
        refine ⟨?_, ih2⟩
        rcases insertGrouped_keys rest r with hkeys | hkeys
        · rw [hkeys]
          exact hnodup.1
        · rw [hkeys]
          intro hkin
          rcases List.mem_append.mp hkin with h' | h'
          · exact hnodup.1 h'
          · simp at h'
            exact hk h'
    -- the induction hypothesis is threaded through `ih hrest` above

theorem groups_assoc_inv (ml : MatcherList) : GroupsInv ml.groups_assoc := by
  rw [MatcherList.groups_assoc]
  have hgen : ∀ (l : List MatchRule) (acc : List (String × List MatchRule)),
      GroupsInv acc → GroupsInv (l.foldl insertGrouped acc) := by
    intro l
    induction l with
    | nil => intro acc h; exact h
    | cons r rest ih =>
      intro acc h
      exact ih _ (insertGrouped_inv h r)
  exact hgen _ [] ⟨by simp, by simp⟩

theorem forall2_keys {G : List (String × List MatchRule)}
    {sel : List MatchRule}
    (hfa : List.Forall₂ (fun p x => x ∈ p.2) G sel)
    (hinv : ∀ p ∈ G, p.2 ≠ [] ∧ ∀ r ∈ p.2, r.key = p.1) :
    sel.map MatchRule.key = G.map Prod.fst := by
  induction hfa with
  | nil => rfl
  | @cons p x ps xs hpx htail ih =>
    rw [List.map_cons, List.map_cons,
      (hinv p (List.mem_cons_self _ _)).2 x hpx,
      ih (fun q hq => hinv q (List.mem_cons_of_mem _ hq))]

theorem catesian_product_keys (ml : MatcherList) {sel : List MatchRule}
    (h : sel ∈ ml.catesian_product) :
    sel.map MatchRule.key = ml.groups_assoc.map Prod.fst := by
  rw [MatcherList.catesian_product] at h
  by_cases hg : ml.make_groups = []
  · simp [hg] at h
  · rw [if_neg hg] at h
    have hfa := mem_cartProd h
    rw [MatcherList.make_groups] at hfa
    rw [List.forall₂_map_left_iff] at hfa
    exact forall2_keys hfa (groups_assoc_inv ml).1

/-- Claim C5: the cartesian product of an empty `MatcherList` is the
empty sequence; on the example list with groups `A = [a1, a2]` and
`B = [b1]` it yields exactly two selections, one a permutation of
`[a1, b1]` and the other of `[a2, b1]` (stated up to permutation because
the source iterates a `HashMap`, whose group order is unspecified); and
in general every selection picks exactly one rule per distinct key —
its key list equals the distinct group keys, so no two picked rules
share a key. -/
theorem C5_catesian_product :
    (MatcherList.mk []).catesian_product = [] ∧
    (let a1 : MatchRule := ⟨"A", "1", .Equal⟩
     let a2 : MatchRule := ⟨"A", "2", .Equal⟩
     let b1 : MatchRule := ⟨"B", "1", .Equal⟩
     let result := (MatcherList.mk [a1, a2, b1]).catesian_product
     result.length = 2 ∧
       (result.getD 0 []).Perm [a1, b1] ∧ (result.getD 1 []).Perm [a2, b1]) ∧
    ∀ (ml : MatcherList) (sel : List MatchRule), sel ∈ ml.catesian_product →
      sel.map MatchRule.key = ml.groups_assoc.map Prod.fst ∧
        (sel.map MatchRule.key).Nodup := by
  refine ⟨rfl, ⟨by decide, by decide, by decide⟩, ?_⟩
  intro ml sel hsel
  have hkeys := catesian_product_keys ml hsel
  exact ⟨hkeys, hkeys ▸ (groups_assoc_inv ml).2⟩

/-- Witness for C5: the general selection property evaluated on a
concrete one-element matcher list. -/
theorem C5_witness :
    ([(⟨"A", "1", .Equal⟩ : MatchRule)] ∈
        (MatcherList.mk [⟨"A", "1", .Equal⟩]).catesian_product) ∧
      (([(⟨"A", "1", .Equal⟩ : MatchRule)].map MatchRule.key =
          (MatcherList.mk [⟨"A", "1", .Equal⟩]).groups_assoc.map Prod.fst) ∧
        ([(⟨"A", "1", .Equal⟩ : MatchRule)].map MatchRule.key).Nodup) :=
  ⟨by decide,
    C5_catesian_product.2.2 (MatcherList.mk [⟨"A", "1", .Equal⟩])
      [⟨"A", "1", .Equal⟩] (by decide)⟩

/-! ## Kubernetes object metadata (k8s_openapi / kube, fields the code reads) -/

/-- `OwnerReference` (the fields `utils::add_owner` sets). -/
structure OwnerReference where
  api_version : String
  kind : String
  name : String
  uid : String
  controller : Option Bool
  block_owner_deletion : Option Bool
deriving DecidableEq

/-- `ObjectMeta`, restricted to the fields the operator reads or writes.
The `BTreeMap` of annotations is an association list in ascending key
order. -/
structure ObjectMeta where
  name : Option String := none
  namespace_ : Option String := none
  annotations : Option (List (String × String)) := none
  uid : Option String := none
  owner_references : Option (List OwnerReference) := none
deriving DecidableEq

/-- `BTreeMap::get` on the association-list model. -/
def lookupAnn (anns : List (String × String)) (key : String) :
    Option String :=
  (anns.find? (fun kv => kv.1 = key)).map Prod.snd

/-- `main::RouteInputInfo`. -/
structure RouteInputInfo where
  ingress_name : String
  ingress_meta : ObjectMeta
  ingress_namespace : String
  gw_name : String
  gw_namespace : String
  section_name : Option String
  hostname : String
  header_matchers : Option HeadersMatchersList
  query_matchers : Option QueryMatchersList
deriving DecidableEq

/-! ## Match rulesets (main.rs, `create_match_rulesets`) -/

/-- `main::EitherQueryOrHeaderMatcher`. -/
inductive EitherQueryOrHeaderMatcher where
  | Header (match_rule : MatchRule)
  | Query (match_rule : MatchRule)
deriving DecidableEq

/-- The `From<EitherQueryOrHeaderMatcher> for MatchRule` impl. -/
def EitherQueryOrHeaderMatcher.toMatchRule :
    EitherQueryOrHeaderMatcher → MatchRule
  | .Header match_rule => match_rule
  | .Query match_rule => match_rule

/-- The header-side cartesian product of `create_match_rulesets`, before
tagging (empty when the `header_matchers` field is `None`). -/
def headers_product (info : RouteInputInfo) : List (List MatchRule) :=
  match info.header_matchers with
  | some header_matcher => header_matcher.list.catesian_product
  | none => []

/-- The query-side cartesian product, before tagging. -/
def query_product (info : RouteInputInfo) : List (List MatchRule) :=
  match info.query_matchers with
  | some query_matcher => query_matcher.list.catesian_product
  | none => []

/-- `headers_cart` in `create_match_rulesets`: each product selection
tagged with the `Header` constructor. -/
def headers_cart_of (info : RouteInputInfo) :
    List (List EitherQueryOrHeaderMatcher) :=
  (headers_product info).map (fun rules =>
    rules.map EitherQueryOrHeaderMatcher.Header)

/-- `query_cart` in `create_match_rulesets`. -/
def query_cart_of (info : RouteInputInfo) :
    List (List EitherQueryOrHeaderMatcher) :=
  (query_product info).map (fun rules =>
    rules.map EitherQueryOrHeaderMatcher.Query)

/-- The closure passed to `permutator::cartesian_product` in the branch
of `create_match_rulesets` where both sides are non-empty: flatten the
product, split the tagged rules back into a header list and a query
list, and wrap each non-empty list in `Some`. -/
def pairRulesets (product : List (List EitherQueryOrHeaderMatcher)) :
    Option HeadersMatchersList × Option QueryMatchersList :=
  let flat := product.flatten
  let headers_list := flat.filterMap (fun item =>
    match item with | .Header r => some r | .Query _ => none)
  let query_list := flat.filterMap (fun item =>
    match item with | .Query r => some r | .Header _ => none)
  ((if headers_list = [] then none
      else some (⟨⟨headers_list⟩⟩ : HeadersMatchersList)),
    (if query_list = [] then none
      else some (⟨⟨query_list⟩⟩ : QueryMatchersList)))

/-- `main::create_match_rulesets`. -/
def create_match_rulesets (route_info : RouteInputInfo) :
    List (Option HeadersMatchersList × Option QueryMatchersList) :=
  if headers_cart_of route_info = [] ∧ query_cart_of route_info = [] then
    [(none, none)]
  else if headers_cart_of route_info = [] then
    (query_cart_of route_info).map (fun matchers =>
      ((none : Option HeadersMatchersList),
        some ⟨⟨matchers.map EitherQueryOrHeaderMatcher.toMatchRule⟩⟩))
  else if query_cart_of route_info = [] then
    (headers_cart_of route_info).map (fun matchers =>
      (some ⟨⟨matchers.map EitherQueryOrHeaderMatcher.toMatchRule⟩⟩,
        (none : Option QueryMatchersList)))
  else
    let res := (cartProd
      [headers_cart_of route_info, query_cart_of route_info]).map pairRulesets
    if res = [] then [(none, none)] else res

theorem catesian_product_ne_nil (ml : MatcherList) {sel : List MatchRule}
    (h : sel ∈ ml.catesian_product) : sel ≠ [] := by
  rw [MatcherList.catesian_product] at h
  by_cases hg : ml.make_groups = []
  · simp [hg] at h
  · rw [if_neg hg] at h
    have hfa := mem_cartProd h
    have hlen := hfa.length_eq
    intro hnil
    subst hnil
    simp at hlen
    exact hg hlen

theorem headers_product_ne_nil (info : RouteInputInfo)
    {sel : List MatchRule} (h : sel ∈ headers_product info) : sel ≠ [] := by
  unfold headers_product at h
  cases hm : info.header_matchers with
  | none => rw [hm] at h; simp at h
  | some m => rw [hm] at h; exact catesian_product_ne_nil _ h

theorem query_product_ne_nil (info : RouteInputInfo)
    {sel : List MatchRule} (h : sel ∈ query_product info) : sel ≠ [] := by
  unfold query_product at h
  cases hm : info.query_matchers with
  | none => rw [hm] at h; simp at h
  | some m => rw [hm] at h; exact catesian_product_ne_nil _ h

theorem flatMap_singleton {α β : Type} (l : List α) (f : α → β) :
    l.flatMap (fun x => [f x]) = l.map f := by
  induction l with
  | nil => rfl
  | cons a t ih => simp [List.flatMap_cons, ih]

theorem cartProd_pair {α : Type} (xs ys : List α) :
    cartProd [xs, ys] = xs.flatMap (fun x => ys.map (fun y => [x, y])) := by
  simp only [cartProd, List.map_cons, List.map_nil]
  rw [flatMap_singleton ys (fun y => [y])]
  simp [List.map_map, Function.comp_def]

theorem extract_header_of_header (h : List MatchRule) :
    (h.map EitherQueryOrHeaderMatcher.Header).filterMap (fun item =>
      match item with | .Header r => some r | .Query _ => none) = h := by
  induction h with
  | nil => rfl
  | cons a t ih => simp [List.map_cons, List.filterMap_cons, ih]

theorem extract_header_of_query (q : List MatchRule) :
    (q.map EitherQueryOrHeaderMatcher.Query).filterMap (fun item =>
      match item with | .Header r => some r | .Query _ => none) = [] := by
  induction q with
  | nil => rfl
  | cons a t ih => simp [List.map_cons, List.filterMap_cons, ih]

theorem extract_query_of_query (q : List MatchRule) :
    (q.map EitherQueryOrHeaderMatcher.Query).filterMap (fun item =>
      match item with | .Query r => some r | .Header _ => none) = q := by
  induction q with
  | nil => rfl
  | cons a t ih => simp [List.map_cons, List.filterMap_cons, ih]

theorem extract_query_of_header (h : List MatchRule) :
    (h.map EitherQueryOrHeaderMatcher.Header).filterMap (fun item =>
      match item with | .Query r => some r | .Header _ => none) = [] := by
  induction h with
  | nil => rfl
  | cons a t ih => simp [List.map_cons, List.filterMap_cons, ih]

/-- Untagging a `Header`-tagged list recovers it; the `Query` extractor
sees none of it (and symmetrically). -/
theorem filterMap_header_tags (h q : List MatchRule) :
    ((h.map EitherQueryOrHeaderMatcher.Header ++
        q.map EitherQueryOrHeaderMatcher.Query).filterMap (fun item =>
          match item with | .Header r => some r | .Query _ => none)) = h ∧
    ((h.map EitherQueryOrHeaderMatcher.Header ++
        q.map EitherQueryOrHeaderMatcher.Query).filterMap (fun item =>
          match item with | .Query r => some r | .Header _ => none)) = q := by
  rw [List.filterMap_append, List.filterMap_append,
    extract_header_of_header, extract_header_of_query,
    extract_query_of_query, extract_query_of_header,
    List.append_nil, List.nil_append]
  exact ⟨rfl, rfl⟩

theorem pairRulesets_tagged (h q : List MatchRule) (hh : h ≠ []) (hq : q ≠ []) :
    pairRulesets [h.map EitherQueryOrHeaderMatcher.Header,
        q.map EitherQueryOrHeaderMatcher.Query] =
      (some ⟨⟨h⟩⟩, some ⟨⟨q⟩⟩) := by
  obtain ⟨hH, hQ⟩ := filterMap_header_tags h q
  rw [pairRulesets]
  have hflat : ([h.map EitherQueryOrHeaderMatcher.Header,
      q.map EitherQueryOrHeaderMatcher.Query] :
        List (List EitherQueryOrHeaderMatcher)).flatten =
      h.map EitherQueryOrHeaderMatcher.Header ++
        q.map EitherQueryOrHeaderMatcher.Query := by
    simp
  rw [hflat, hH, hQ, if_neg hh, if_neg hq]

theorem cross_map_pairRulesets (hs qs : List (List MatchRule))
    (hne : ∀ h ∈ hs, h ≠ []) (qne : ∀ q ∈ qs, q ≠ []) :
    ((hs.map (fun h => h.map EitherQueryOrHeaderMatcher.Header)).flatMap
        (fun x =>
          (qs.map (fun q => q.map EitherQueryOrHeaderMatcher.Query)).map
            (fun y => [x, y]))).map pairRulesets =
      hs.flatMap (fun h => qs.map (fun q => (some ⟨⟨h⟩⟩, some ⟨⟨q⟩⟩))) := by
  induction hs with
  | nil => simp
  | cons h hs' ih =>
    rw [List.map_cons, List.flatMap_cons, List.map_append,
      ih (fun a ha => hne a (List.mem_cons_of_mem _ ha)),
      List.flatMap_cons]
    congr 1
    rw [List.map_map, List.map_map]
    refine List.map_congr_left ?_
    intro q hqmem
    simp only [Function.comp_def]
    exact pairRulesets_tagged h q (hne h (List.mem_cons_self _ _)) (qne q hqmem)

/-- Claim C6: with both matcher products empty, `create_match_rulesets`
returns exactly `[(None, None)]`; with exactly one side non-empty, that
side's products each paired with `None`; with both non-empty, the
pairwise cross of the two product lists as `(Some, Some)` pairs. -/
theorem C6_create_match_rulesets (info : RouteInputInfo) :
    (headers_product info = [] → query_product info = [] →
      create_match_rulesets info = [(none, none)]) ∧
    (headers_product info = [] → query_product info ≠ [] →
      create_match_rulesets info =
        (query_product info).map (fun q => (none, some ⟨⟨q⟩⟩))) ∧
    (headers_product info ≠ [] → query_product info = [] →
      create_match_rulesets info =
        (headers_product info).map (fun h => (some ⟨⟨h⟩⟩, none))) ∧
    (headers_product info ≠ [] → query_product info ≠ [] →
      create_match_rulesets info =
        (headers_product info).flatMap (fun h =>
          (query_product info).map (fun q =>
            (some ⟨⟨h⟩⟩, some ⟨⟨q⟩⟩)))) := by
  have hhc : headers_cart_of info = [] ↔ headers_product info = [] := by
    simp [headers_cart_of]
  have hqc : query_cart_of info = [] ↔ query_product info = [] := by
    simp [query_cart_of]
  refine ⟨?_, ?_, ?_, ?_⟩
  · intro hh hq
    rw [create_match_rulesets, if_pos ⟨hhc.mpr hh, hqc.mpr hq⟩]
  · intro hh hq
    rw [create_match_rulesets,
      if_neg (fun hand => hq (hqc.mp hand.2)), if_pos (hhc.mpr hh)]
    rw [query_cart_of, List.map_map]
    refine List.map_congr_left ?_
    intro q hqmem
    simp [Function.comp_def, List.map_map,
      EitherQueryOrHeaderMatcher.toMatchRule]
  · intro hh hq
    rw [create_match_rulesets,
      if_neg (fun hand => hh (hhc.mp hand.1)),
      if_neg (fun h' => hh (hhc.mp h')), if_pos (hqc.mpr hq)]
    rw [headers_cart_of, List.map_map]
    refine List.map_congr_left ?_
    intro h hmem
    simp [Function.comp_def, List.map_map,
      EitherQueryOrHeaderMatcher.toMatchRule]
  · intro hh hq
    rw [create_match_rulesets,
      if_neg (fun hand => hh (hhc.mp hand.1)),
      if_neg (fun h' => hh (hhc.mp h')),
      if_neg (fun h' => hq (hqc.mp h'))]
    have hres : (cartProd
        [headers_cart_of info, query_cart_of info]).map pairRulesets =
        (headers_product info).flatMap (fun h =>
          (query_product info).map (fun q =>
            (some ⟨⟨h⟩⟩, some ⟨⟨q⟩⟩))) := by
      rw [cartProd_pair, headers_cart_of, query_cart_of]
      exact cross_map_pairRulesets _ _
        (fun h hmem => headers_product_ne_nil info hmem)
        (fun q hmem => query_product_ne_nil info hmem)
    have hne : (headers_product info).flatMap (fun h =>
        (query_product info).map (fun q =>
          ((some ⟨⟨h⟩⟩ : Option HeadersMatchersList),
            (some ⟨⟨q⟩⟩ : Option QueryMatchersList)))) ≠ [] := by
      obtain ⟨h, hs', heqh⟩ := List.exists_cons_of_ne_nil hh
      obtain ⟨q, qs', heqq⟩ := List.exists_cons_of_ne_nil hq
      simp only [heqh, heqq]
      simp [List.flatMap_cons]
    simp only [hres, if_neg hne]

/-- A `RouteInputInfo` with one header matcher and no query matchers,
used to instantiate the C6 theorem. -/
def sampleInfo : RouteInputInfo :=
  { ingress_name := "ing"
    ingress_meta := {}
    ingress_namespace := "default"
    gw_name := "gw"
    gw_namespace := "gw-ns"
    section_name := none
    hostname := "example.com"
    header_matchers := some ⟨⟨[⟨"env", "prod", .Equal⟩]⟩⟩
    query_matchers := none }

/-- Witness for C6: on `sampleInfo` (one header group, no query
matchers) the header-only branch applies. -/
theorem C6_witness :
    create_match_rulesets sampleInfo =
      (headers_product sampleInfo).map (fun h => (some ⟨⟨h⟩⟩, none)) :=
  (C6_create_match_rulesets sampleInfo).2.2.1 (by decide) (by decide)


/-! ## Cluster environment and services (k8s_openapi core/v1, read-only) -/

/-- `ServiceBackendPort`: a port selected by number or by name. -/
structure ServiceBackendPort where
  name : Option String
  number : Option Int
deriving DecidableEq

/-- `ServicePort`, restricted to the fields `get_svc_port_number` reads. -/
structure ServicePort where
  name : Option String
  port : Int
deriving DecidableEq

/-- `ServiceSpec`, restricted to the `ports` list. -/
structure ServiceSpec where
  ports : Option (List ServicePort)
deriving DecidableEq

/-- `Service`, restricted to its spec. -/
structure Service where
  spec : Option ServiceSpec
deriving DecidableEq

/-- The Kubernetes API as seen by one reconcile pass: services keyed by
`(namespace, name)`, and the outcome of each server-side-apply patch,
keyed by `(namespace, object name)` (`true` means the patch call fails). -/
structure ClusterEnv where
  services : List ((String × String) × Service)
  patchFails : String → String → Bool

/-- `Api::namespaced(..).get(name)` with errors collapsed to `None`
(the caller applies `.ok()`). -/
def getService (env : ClusterEnv) (ns name : String) : Option Service :=
  (env.services.find? (fun kv => kv.1 = (ns, name))).map Prod.snd

/-- `main::get_svc_port_number`: a numeric port is returned directly; a
named port is resolved against the live Service object; anything else is
`None`. -/
def get_svc_port_number (env : ClusterEnv) (ns : String) (svc_name : String)
    (port_def : ServiceBackendPort) : Option Int :=
  match port_def.number with
  | some number => some number
  | none =>
    match port_def.name with
    | none => none
    | some port_name =>
      ((((getService env ns svc_name).bind (fun o => o.spec)).bind
          (fun s => s.ports)).bind
        (fun ports => ports.find? (fun port => port.name = some port_name))).map
        (fun port => port.port)

/-! ## Ingress input model (k8s_openapi networking/v1, fields the code reads) -/

/-- `IngressServiceBackend`. -/
structure IngressServiceBackend where
  name : String
  port : Option ServiceBackendPort
deriving DecidableEq

/-- `IngressBackend`, restricted to the `service` field the code reads. -/
structure IngressBackend where
  service : Option IngressServiceBackend
deriving DecidableEq

/-- `HTTPIngressPath`. -/
structure HTTPIngressPath where
  backend : IngressBackend
  path : Option String
  path_type : String
deriving DecidableEq

/-- `HTTPIngressRuleValue`. -/
structure HTTPIngressRuleValue where
  paths : List HTTPIngressPath
deriving DecidableEq

/-- `IngressRule`. -/
structure IngressRule where
  host : Option String
  http : Option HTTPIngressRuleValue
deriving DecidableEq

/-- `IngressSpec`, restricted to the fields the code reads. -/
structure IngressSpec where
  default_backend : Option IngressBackend
  rules : Option (List IngressRule)
deriving DecidableEq

/-- `Ingress`. -/
structure Ingress where
  metadata : ObjectMeta
  spec : Option IngressSpec
deriving DecidableEq

/-- `ResourceExt::name_any` (the `generateName` fallback is irrelevant
for objects read back from the API, which always carry a name). -/
def name_any (meta : ObjectMeta) : String :=
  meta.name.getD ""

/-! ## Annotation keys (src/consts.rs) -/

/-- `consts::SPLIT_ROUTES`. -/
def SPLIT_ROUTES : String := "i2g-operator/split-paths"

/-- `consts::TRANSLATE_INGRESS`. -/
def TRANSLATE_INGRESS : String := "i2g-operator/translate"

/-- `consts::GATEWAY_NAME`. -/
def GATEWAY_NAME : String := "i2g-operator/gateway-name"

/-- `consts::GATEWAY_NAMESPACE`. -/
def GATEWAY_NAMESPACE : String := "i2g-operator/gateway-namespace"

/-- `consts::DESIRED_SECTION`. -/
def DESIRED_SECTION : String := "i2g-operator/section-name"

/-- Modelled from the spec: `consts::HEADER_FILTERS_PREFIX` is referenced
by main.rs but absent from the provided src/consts.rs; the spec lists a
`header-filter-prefix/<weight>` annotation family.  The exact literal is
irrelevant to every claim. -/
def HEADER_FILTERS_PFX : String := "i2g-operator/header-filters"

/-- Modelled from the spec: `consts::QUERY_FILTERS_PREFIX`, as above. -/
def QUERY_FILTERS_PFX : String := "i2g-operator/query-filters"

/-- Rust `str::to_lowercase` on the ASCII annotation values the code
compares with `"true"`. -/
def strToLower (s : String) : String :=
  ⟨s.data.map Char.toLower⟩

/-- `ObjectMeta::annotations.as_ref().and_then(|ann| ann.get(key))`. -/
def getAnn (meta : ObjectMeta) (key : String) : Option String :=
  meta.annotations.bind (fun anns => lookupAnn anns key)

/-! ## Generated route objects (gateway_api crate, fields the code sets) -/

/-- `Gateway::group()` from the gateway_api crate (external collaborator). -/
def GATEWAY_GROUP : String := "gateway.networking.k8s.io"

/-- `Gateway::kind()` from the gateway_api crate (external collaborator). -/
def GATEWAY_KIND : String := "Gateway"

/-- `HTTPRouteRulesMatchesPathType`, restricted to the constructors the
translation emits. -/
inductive HTTPRouteRulesMatchesPathType where
  | PathPrefix
  | Exact
deriving DecidableEq

inductive HTTPRouteRulesMatchesHeadersType where
  | Exact
  | RegularExpression
deriving DecidableEq

inductive HTTPRouteRulesMatchesQueryParamsType where
  | Exact
  | RegularExpression
deriving DecidableEq

/-- The `From<MatchType> for HTTPRouteRulesMatchesHeadersType` impl. -/
def MatchType.toHeadersType : MatchType → HTTPRouteRulesMatchesHeadersType
  | .Equal => .Exact
  | .RegularExpression => .RegularExpression

/-- The `From<MatchType> for HTTPRouteRulesMatchesQueryParamsType` impl. -/
def MatchType.toQueryParamsType :
    MatchType → HTTPRouteRulesMatchesQueryParamsType
  | .Equal => .Exact
  | .RegularExpression => .RegularExpression

structure HTTPRouteRulesMatchesHeaders where
  name : String
  type : Option HTTPRouteRulesMatchesHeadersType
  value : String
deriving DecidableEq

structure HTTPRouteRulesMatchesQueryParams where
  name : String
  type : Option HTTPRouteRulesMatchesQueryParamsType
  value : String
deriving DecidableEq

/-- The `From<HeadersMatchersList> for Vec<HTTPRouteRulesMatchesHeaders>`
impl in value_filters.rs. -/
def HeadersMatchersList.toHTTPHeaders (value : HeadersMatchersList) :
    List HTTPRouteRulesMatchesHeaders :=
  value.list.rules.map (fun matcher =>
    { name := matcher.key, type := some matcher.match_type.toHeadersType,
      value := matcher.value })

/-- The `From<QueryMatchersList> for Vec<HTTPRouteRulesMatchesQueryParams>`
impl in value_filters.rs. -/
def QueryMatchersList.toHTTPQueryParams (value : QueryMatchersList) :
    List HTTPRouteRulesMatchesQueryParams :=
  value.list.rules.map (fun matcher =>
    { name := matcher.key, type := some matcher.match_type.toQueryParamsType,
      value := matcher.value })

structure HTTPRouteRulesMatchesPath where
  type : Option HTTPRouteRulesMatchesPathType
  value : Option String
deriving DecidableEq

structure HTTPRouteRulesMatches where
  headers : Option (List HTTPRouteRulesMatchesHeaders)
  method : Option String
  query_params : Option (List HTTPRouteRulesMatchesQueryParams)
  path : Option HTTPRouteRulesMatchesPath
deriving DecidableEq

/-- `HTTPRouteRulesBackendRefs` (the `filters` field, always `None` in
the source, is omitted). -/
structure HTTPRouteRulesBackendRefs where
  name : String
  port : Option Int
  kind : Option String
  group : Option String
  namespace_ : Option String
  weight : Option Int
deriving DecidableEq

/-- `HTTPRouteRules` (the `filters` and `timeouts` fields, always `None`
in the source, are omitted). -/
structure HTTPRouteRules where
  name : Option String
  backend_refs : Option (List HTTPRouteRulesBackendRefs)
  «matches» : Option (List HTTPRouteRulesMatches)
deriving DecidableEq

structure HTTPRouteParentRefs where
  group : Option String
  kind : Option String
  name : String
  namespace_ : Option String
  port : Option Int
  section_name : Option String
deriving DecidableEq

structure HTTPRouteSpec where
  hostnames : Option (List String)
  parent_refs : Option (List HTTPRouteParentRefs)
  rules : Option (List HTTPRouteRules)
deriving DecidableEq

structure HTTPRoute where
  metadata : ObjectMeta
  spec : HTTPRouteSpec
deriving DecidableEq

/-- `HTTPRoute::new(name, spec)` (kube `Resource::new`). -/
def HTTPRoute.new (name : String) (spec : HTTPRouteSpec) : HTTPRoute :=
  { metadata := { name := some name }, spec := spec }

structure TCPRouteRulesBackendRefs where
  name : String
  port : Option Int
  kind : Option String
  group : Option String
  namespace_ : Option String
  weight : Option Int
deriving DecidableEq

structure TCPRouteRules where
  name : Option String
  backend_refs : List TCPRouteRulesBackendRefs
deriving DecidableEq

structure TCPRouteParentRefs where
  group : Option String
  kind : Option String
  name : String
  namespace_ : Option String
  port : Option Int
  section_name : Option String
deriving DecidableEq

/-- `TCPRouteSpec` (`use_default_gateways` is set to `None` by the
source; its payload type is irrelevant and modelled as `Bool`). -/
structure TCPRouteSpec where
  use_default_gateways : Option Bool
  rules : List TCPRouteRules
  parent_refs : Option (List TCPRouteParentRefs)
deriving DecidableEq

structure TCPRoute where
  metadata : ObjectMeta
  spec : TCPRouteSpec
deriving DecidableEq

/-- `TCPRoute::new(name, spec)`. -/
def TCPRoute.new (name : String) (spec : TCPRouteSpec) : TCPRoute :=
  { metadata := { name := some name }, spec := spec }

/-! ## Route generation (main.rs, `create_http_routes` / `create_tcp_routes`) -/

/-- The `split_routes` flag read at the top of `create_http_routes`:
the split-paths annotation is present and case-insensitively `"true"`. -/
def split_routes_of (meta : ObjectMeta) : Bool :=
  ((getAnn meta SPLIT_ROUTES).map
    (fun v => strToLower v == "true")).getD false

/-- The parent reference each generated HTTPRoute carries. -/
def mkParentRef (route_info : RouteInputInfo) : HTTPRouteParentRefs :=
  { group := some GATEWAY_GROUP
    kind := some GATEWAY_KIND
    name := route_info.gw_name
    namespace_ := some route_info.gw_namespace
    port := none
    section_name := route_info.section_name }

/-- `rule.matches.as_ref().and_then(|m| m.first()).and_then(|mm|
mm.path.as_ref()).and_then(|p| p.value.clone())` from the split-routes
naming expression. -/
def rule_path_value (rule : HTTPRouteRules) : Option String :=
  ((rule.«matches».bind List.head?).bind (fun mm => mm.path)).bind
    (fun p => p.value)

/-- The `for path in &http.paths` loop of `create_http_routes`: paths
without a service, without a port, or with an unresolvable port are
skipped; an unknown path type aborts the whole call; otherwise one
`HTTPRouteRules` is pushed per entry of the match ruleset. -/
def build_http_rules (env : ClusterEnv) (ns : String)
    (match_ruleset : List (Option HeadersMatchersList × Option QueryMatchersList)) :
    List HTTPIngressPath → Except String (List HTTPRouteRules)
  | [] => .ok []
  | path :: rest =>
    match path.backend.service with
    | none => build_http_rules env ns match_ruleset rest
    | some svc =>
      match svc.port with
      | none => build_http_rules env ns match_ruleset rest
      | some svc_port =>
        match get_svc_port_number env ns svc.name svc_port with
        | none => build_http_rules env ns match_ruleset rest
        | some svc_port_number =>
          match (match path.path_type with
            | "Prefix" => some HTTPRouteRulesMatchesPathType.PathPrefix
            | "Exact" => some HTTPRouteRulesMatchesPathType.Exact
            | "ImplementationSpecific" =>
              some HTTPRouteRulesMatchesPathType.PathPrefix
            | _ => none) with
          | none => .error ("Unknown path type: " ++ path.path_type)
          | some match_type =>
            match build_http_rules env ns match_ruleset rest with
            | .error e => .error e
            | .ok tail =>
              .ok ((match_ruleset.map (fun mr =>
                ({ name := none
                   backend_refs := some
                     [{ name := svc.name, port := some svc_port_number,
                        kind := none, group := none, namespace_ := none,
                        weight := none }]
                   «matches» := some
                     [{ headers := mr.1.map HeadersMatchersList.toHTTPHeaders
                        method := none
                        query_params :=
                          mr.2.map QueryMatchersList.toHTTPQueryParams
                        path := some { type := some match_type,
                                       value := path.path } }] } :
                  HTTPRouteRules))) ++ tail)

/-- `main::create_http_routes`. -/
def create_http_routes (env : ClusterEnv) (route_info : RouteInputInfo)
    (http : HTTPIngressRuleValue) : Except String (List HTTPRoute) :=
  match build_http_rules env route_info.ingress_namespace
      (create_match_rulesets route_info) http.paths with
  | .error e => .error e
  | .ok rules =>
    if rules = [] then .error "No valid paths found"
    else if split_routes_of route_info.ingress_meta then
      .ok (rules.map (fun rule =>
        HTTPRoute.new
          (route_info.ingress_name ++ "-" ++
            sanitize_hostname route_info.hostname ++ "-" ++
            sanitize_hostname ((rule_path_value rule).getD "root"))
          { hostnames := some [route_info.hostname]
            parent_refs := some [mkParentRef route_info]
            rules := some [rule] }))
    else
      .ok [HTTPRoute.new
        (route_info.ingress_name ++ "-" ++
          sanitize_hostname route_info.hostname ++ "-http")
        { hostnames := some [route_info.hostname]
          parent_refs := some [mkParentRef route_info]
          rules := some rules }]

/-- `main::create_tcp_routes`. -/
def create_tcp_routes (env : ClusterEnv) (route_info : RouteInputInfo)
    (svc : IngressServiceBackend) : Except String TCPRoute :=
  match svc.port with
  | none => .error "Backend doesn't have port"
  | some svc_port =>
    match get_svc_port_number env route_info.ingress_namespace svc.name
        svc_port with
    | none => .error ("Couldn't resolve port for a service " ++ svc.name)
    | some svc_port_number =>
      .ok (TCPRoute.new
        (route_info.ingress_name ++ "-" ++
          sanitize_hostname route_info.hostname ++ "-tcp")
        { use_default_gateways := none
          rules := [{ name := none
                      backend_refs :=
                        [{ name := svc.name, port := some svc_port_number,
                           kind := none, group := none, namespace_ := none,
                           weight := none }] }]
          parent_refs := some
            [{ group := some GATEWAY_GROUP, kind := some GATEWAY_KIND,
               name := route_info.gw_name,
               namespace_ := some route_info.gw_namespace, port := none,
               section_name := route_info.section_name }] })

/-- A path the loop of `create_http_routes` skips with a warning: no
backend service, no backend port, or an unresolvable port. -/
def is_path_skipped (env : ClusterEnv) (ns : String)
    (path : HTTPIngressPath) : Bool :=
  match path.backend.service with
  | none => true
  | some svc =>
    match svc.port with
    | none => true
    | some svc_port => (get_svc_port_number env ns svc.name svc_port).isNone

theorem build_http_rules_all_skipped (env : ClusterEnv) (ns : String)
    (mrs : List (Option HeadersMatchersList × Option QueryMatchersList))
    (paths : List HTTPIngressPath)
    (h : ∀ p ∈ paths, is_path_skipped env ns p = true) :
    build_http_rules env ns mrs paths = .ok [] := by
  induction paths with
  | nil => rfl
  | cons p rest ih =>
    have hp := h p (List.mem_cons_self _ _)
    have htail := ih (fun q hq => h q (List.mem_cons_of_mem _ hq))
    simp only [is_path_skipped] at hp
    rw [build_http_rules]
    cases hs : p.backend.service with
    | none => exact htail
    | some svc =>
      simp only [hs] at hp ⊢
      cases hport : svc.port with
      | none => exact htail
      | some svc_port =>
        simp only [hport] at hp ⊢
        cases hg : get_svc_port_number env ns svc.name svc_port with
        | none => exact htail
        | some v =>
          rw [hg] at hp
          exact absurd hp (by simp [Option.isNone])

/-- Claim C10: a host whose `http` block is non-empty but in which every
path is skipped (backend without a service, without a port, or with an
unresolvable port) makes `create_http_routes` fail with the "No valid
paths found" error instead of returning an empty route list. -/
theorem C10_no_valid_paths (env : ClusterEnv) (info : RouteInputInfo)
    (http : HTTPIngressRuleValue) (hne : http.paths ≠ [])
    (h : ∀ p ∈ http.paths,
      is_path_skipped env info.ingress_namespace p = true) :
    create_http_routes env info http = .error "No valid paths found" := by
  have hb := build_http_rules_all_skipped env info.ingress_namespace
    (create_match_rulesets info) http.paths h
  simp [create_http_routes, hb]

/-- An environment without services whose patches all succeed. -/
def envEmpty : ClusterEnv := ⟨[], fun _ _ => false⟩

/-- An http block with a single path whose backend has no service. -/
def httpSkipped : HTTPIngressRuleValue :=
  ⟨[{ backend := ⟨none⟩, path := some "/", path_type := "Prefix" }]⟩

/-- Witness for C10 on a concrete one-path http block. -/
theorem C10_witness :
    httpSkipped.paths ≠ [] ∧
    (∀ p ∈ httpSkipped.paths,
      is_path_skipped envEmpty sampleInfo.ingress_namespace p = true) ∧
    create_http_routes envEmpty sampleInfo httpSkipped =
      .error "No valid paths found" :=
  ⟨by decide, by decide,
    C10_no_valid_paths envEmpty sampleInfo httpSkipped (by decide) (by decide)⟩

/-- Metadata carrying only the split-paths annotation. -/
def metaSplit : ObjectMeta :=
  { annotations := some [("i2g-operator/split-paths", "true")] }

/-- Route input for an Ingress named `ing`, host `example.com`, with the
split-paths annotation set and no matcher annotations. -/
def infoSplit : RouteInputInfo :=
  { ingress_name := "ing"
    ingress_meta := metaSplit
    ingress_namespace := "default"
    gw_name := "gw"
    gw_namespace := "gw-ns"
    section_name := none
    hostname := "example.com"
    header_matchers := none
    query_matchers := none }

/-- An http block with a single path whose `path` field is the *empty
string* (present but empty) and a numeric backend port. -/
def httpEmptyPath : HTTPIngressRuleValue :=
  ⟨[{ backend := ⟨some ⟨"svc", some ⟨none, some 80⟩⟩⟩, path := some "",
      path_type := "Exact" }]⟩

/-- Claim C3 fails as stated: with split-routes enabled and a
present-but-empty path, the emitted route's name suffix is `all-hosts`
(the sanitizer applied to `""`), not the `root` the claim prescribes for
an empty path; `root` only appears when the path field is absent. -/
theorem C3_counterexample :
    (create_http_routes envEmpty infoSplit httpEmptyPath).map
        (fun routes => routes.map (fun r => name_any r.metadata)) =
      .ok ["ing-example-com-all-hosts"] ∧
    ("ing-example-com-all-hosts" : String) ≠ "ing-example-com-root" := by
  constructor
  · rfl
  · decide

/-- Claim C3 (amended): when route generation succeeds, split-routes
true emits exactly one HTTPRoute per generated rule, named
`{ingressName}-{sanitizedHostname}-{suffix}` where the suffix is the
sanitized path value with an *absent* path value replaced by `"root"`
before sanitization (so a present-but-empty path yields `all-hosts`);
otherwise a single aggregated HTTPRoute with suffix `http` carries all
the rules. -/
theorem C3_route_naming (env : ClusterEnv) (info : RouteInputInfo)
    (http : HTTPIngressRuleValue) (routes : List HTTPRoute)
    (hok : create_http_routes env info http = .ok routes) :
    ∃ rules, build_http_rules env info.ingress_namespace
        (create_match_rulesets info) http.paths = .ok rules ∧
      rules ≠ [] ∧
      (split_routes_of info.ingress_meta = true →
        routes.map (fun r => name_any r.metadata) =
          rules.map (fun rule => info.ingress_name ++ "-" ++
            sanitize_hostname info.hostname ++ "-" ++
            sanitize_hostname ((rule_path_value rule).getD "root")) ∧
        routes.map (fun r => r.spec.rules) =
          rules.map (fun rule => some [rule])) ∧
      (split_routes_of info.ingress_meta = false →
        routes = [HTTPRoute.new (info.ingress_name ++ "-" ++
            sanitize_hostname info.hostname ++ "-http")
          { hostnames := some [info.hostname]
            parent_refs := some [mkParentRef info]
            rules := some rules }]) := by
  cases hb : build_http_rules env info.ingress_namespace
      (create_match_rulesets info) http.paths with
  | error e =>
    simp only [create_http_routes, hb] at hok
    exact absurd hok (by simp)
  | ok rules =>
    simp only [create_http_routes, hb] at hok
    by_cases hnil : rules = []
    · rw [if_pos hnil] at hok
      exact absurd hok (by simp)
    · rw [if_neg hnil] at hok
      refine ⟨rules, rfl, hnil, ?_, ?_⟩
      · intro hsplit
        rw [if_pos hsplit] at hok
        have hroutes : routes = rules.map _ := ((Except.ok.injEq _ _).mp hok).symm
        subst hroutes
        constructor
        · rw [List.map_map]
          refine List.map_congr_left ?_
          intro rule hmem
          simp [Function.comp_def, HTTPRoute.new, name_any]
        · rw [List.map_map]
          refine List.map_congr_left ?_
          intro rule hmem
          simp [Function.comp_def, HTTPRoute.new]
      · intro hsplit
        rw [if_neg (by simp [hsplit])] at hok
        exact ((Except.ok.injEq _ _).mp hok).symm

/-- The single rule generated for `httpEmptyPath`. -/
def ruleEmptyPath : HTTPRouteRules :=
  { name := none
    backend_refs := some [{ name := "svc", port := some 80, kind := none,
                            group := none, namespace_ := none,
                            weight := none }]
    «matches» := some [{ headers := none, method := none,
                         query_params := none,
                         path := some { type := some .Exact,
                                        value := some "" } }] }

/-- The route list `create_http_routes` produces for `httpEmptyPath`
under `infoSplit`. -/
def routesSplit : List HTTPRoute :=
  [HTTPRoute.new "ing-example-com-all-hosts"
    { hostnames := some ["example.com"]
      parent_refs := some [mkParentRef infoSplit]
      rules := some [ruleEmptyPath] }]

/-- Witness for the amended C3 on the concrete split-routes input. -/
theorem C3_witness :
    ∃ rules, build_http_rules envEmpty infoSplit.ingress_namespace
        (create_match_rulesets infoSplit) httpEmptyPath.paths = .ok rules ∧
      rules ≠ [] ∧
      (split_routes_of infoSplit.ingress_meta = true →
        routesSplit.map (fun r => name_any r.metadata) =
          rules.map (fun rule => infoSplit.ingress_name ++ "-" ++
            sanitize_hostname infoSplit.hostname ++ "-" ++
            sanitize_hostname ((rule_path_value rule).getD "root")) ∧
        routesSplit.map (fun r => r.spec.rules) =
          rules.map (fun rule => some [rule])) ∧
      (split_routes_of infoSplit.ingress_meta = false →
        routesSplit = [HTTPRoute.new (infoSplit.ingress_name ++ "-" ++
            sanitize_hostname infoSplit.hostname ++ "-http")
          { hostnames := some [infoSplit.hostname]
            parent_refs := some [mkParentRef infoSplit]
            rules := some rules }]) :=
  C3_route_naming envEmpty infoSplit httpEmptyPath routesSplit (by rfl)

/-! ## Reconcile (main.rs, `reconcile` / `on_error`) -/

/-- `args::I2GArgs` (the log level, unread by the core, is omitted). -/
structure I2GArgs where
  default_gateway_name : String
  default_gateway_namespace : String
  link_to_ingress : Bool
  experimental : Bool
  skip_by_default : Bool
deriving DecidableEq

/-- `ctx::Context`: the atomic leadership flag is modelled as the value
the reconcile pass reads once at its top. -/
structure Context where
  args : I2GArgs
  is_leader : Bool
  hostname : String
deriving DecidableEq

/-- `kube::runtime::controller::Action::requeue(Duration::from_secs n)`. -/
structure Action where
  requeue_secs : Nat
deriving DecidableEq

def Action.requeue (secs : Nat) : Action := ⟨secs⟩

/-- `Ingress::api_version` from k8s_openapi (external collaborator). -/
def INGRESS_API_VERSION : String := "networking.k8s.io/v1"

/-- `Ingress::kind` from k8s_openapi (external collaborator). -/
def INGRESS_KIND : String := "Ingress"

/-- The fixed field manager of every apply patch. -/
def FIELD_MANAGER : String := "ingress-to-gateway-controller"

/-- `utils::ObjectMetaI2GExt::add_owner`: append an owner reference,
deduplicated by UID.  (The source `unwrap()`s the owner's UID, panicking
when it is absent; the model totalises that with an empty string.) -/
def add_owner (meta : ObjectMeta) (owner_api_version owner_kind : String)
    (owner_meta : ObjectMeta) : ObjectMeta :=
  let owners := meta.owner_references.getD []
  let owner : OwnerReference :=
    { api_version := owner_api_version
      kind := owner_kind
      name := name_any owner_meta
      uid := owner_meta.uid.getD ""
      controller := none
      block_owner_deletion := some false }
  if owners.any (fun o => o.uid = owner.uid) then
    { meta with owner_references := some owners }
  else
    { meta with owner_references := some (owners ++ [owner]) }

/-- One write the reconcile pass performed (an apply patch that the API
accepted). -/
inductive AppliedRoute where
  | http (ns : String) (route : HTTPRoute)
  | tcp (ns : String) (route : TCPRoute)
deriving DecidableEq

/-- The `skip_translation` decision at the top of `reconcile`: translate
only when the annotation says `"true"` (case-insensitively), falling
back to the operator-wide `skip_by_default` policy when absent. -/
def skip_translation_of (ingress : Ingress) (ctx : Context) : Bool :=
  ((getAnn ingress.metadata TRANSLATE_INGRESS).map
    (fun v => strToLower v != "true")).getD ctx.args.skip_by_default

/-- The `RouteInputInfo` literal built for each host rule in the
reconcile loop. -/
def mk_route_info (ing : Ingress) (ns gw_name gw_ns : String)
    (sect : Option String) (hm : Option HeadersMatchersList)
    (qm : Option QueryMatchersList) (host : String) : RouteInputInfo :=
  { ingress_name := name_any ing.metadata
    header_matchers := hm
    query_matchers := qm
    gw_name := gw_name
    gw_namespace := gw_ns
    ingress_meta := ing.metadata
    hostname := host
    ingress_namespace := ns
    section_name := sect }

/-- The `for route in routes` apply loop: each route is (optionally)
linked to the Ingress, then applied; a failed patch propagates via `?`,
aborting the whole reconcile. -/
def apply_http_routes (env : ClusterEnv) (ctx : Context) (ing : Ingress)
    (ns : String) : List HTTPRoute → List AppliedRoute × Option String
  | [] => ([], none)
  | route :: rest =>
    let route := if ctx.args.link_to_ingress then
        { route with metadata := (add_owner route.metadata
            INGRESS_API_VERSION INGRESS_KIND ing.metadata) }
      else route
    if env.patchFails ns (name_any route.metadata) then
      ([], some "apply failed")
    else
      match apply_http_routes env ctx ing ns rest with
      | (ws, e) => (AppliedRoute.http ns route :: ws, e)

/-- The `for rule in ingress_rules` loop of `reconcile`: hosts are
processed in order; rules without a host, hosts whose route *building*
fails, non-http rules without the experimental flag or a usable default
backend are skipped with a warning; a failed *apply* aborts the pass
(`?`), carrying the writes made so far. -/
def process_rules (env : ClusterEnv) (ctx : Context) (ing : Ingress)
    (ns gw_name gw_ns : String) (sect : Option String)
    (hm : Option HeadersMatchersList) (qm : Option QueryMatchersList)
    (db : Option IngressBackend) :
    List IngressRule → List AppliedRoute × Option String
  | [] => ([], none)
  | rule :: rest =>
    match rule.host with
    | none => process_rules env ctx ing ns gw_name gw_ns sect hm qm db rest
    | some host =>
      match rule.http with
      | some http =>
        match create_http_routes env
            (mk_route_info ing ns gw_name gw_ns sect hm qm host) http with
        | .error _ =>
          process_rules env ctx ing ns gw_name gw_ns sect hm qm db rest
        | .ok routes =>
          match apply_http_routes env ctx ing ns routes with
          | (ws, some e) => (ws, some e)
          | (ws, none) =>
            match process_rules env ctx ing ns gw_name gw_ns sect hm qm db
                rest with
            | (ws2, e) => (ws ++ ws2, e)
      | none =>
        if ctx.args.experimental = false then
          process_rules env ctx ing ns gw_name gw_ns sect hm qm db rest
        else
          match db with
          | none =>
            process_rules env ctx ing ns gw_name gw_ns sect hm qm db rest
          | some backend =>
            match backend.service with
            | none =>
              process_rules env ctx ing ns gw_name gw_ns sect hm qm db rest
            | some backend_svc =>
              match create_tcp_routes env
                  (mk_route_info ing ns gw_name gw_ns sect hm qm host)
                  backend_svc with
              | .error _ =>
                process_rules env ctx ing ns gw_name gw_ns sect hm qm db
                  rest
              | .ok route =>
                let route := if ctx.args.link_to_ingress then
                    { route with metadata := (add_owner route.metadata
                        INGRESS_API_VERSION INGRESS_KIND ing.metadata) }
                  else route
                if env.patchFails ns (name_any route.metadata) then
                  ([], some "apply failed")
                else
                  match process_rules env ctx ing ns gw_name gw_ns sect hm
                      qm db rest with
                  | (ws2, e) => (AppliedRoute.tcp ns route :: ws2, e)

/-- `main::reconcile`: the returned pair is the controller result and
the list of apply patches the pass performed. -/
def reconcile (env : ClusterEnv) (ingress : Ingress) (ctx : Context) :
    Except String Action × List AppliedRoute :=
  if ctx.is_leader = false then (.ok (Action.requeue 20), [])
  else if skip_translation_of ingress ctx then (.ok (Action.requeue 60), [])
  else
    match ingress.spec with
    | none => (.error "Ingres doesn't have spec section", [])
    | some ingress_spec =>
      match ingress_spec.rules with
      | none => (.error "Ingress doesn't have any routing rules", [])
      | some ingress_rules =>
        match ingress.metadata.namespace_ with
        | none => (.error "Ingress doesn't have a namespace", [])
        | some ingress_namespace =>
          let desired_section_name := getAnn ingress.metadata DESIRED_SECTION
          let gw_namespace := (getAnn ingress.metadata
            GATEWAY_NAMESPACE).getD ctx.args.default_gateway_namespace
          let gw_name := (getAnn ingress.metadata GATEWAY_NAME).getD
            ctx.args.default_gateway_name
          let header_matchers := ingress.metadata.annotations.map
            (fun anns => HeadersMatchersList.mk
              (MatcherList.from_annotations anns HEADER_FILTERS_PFX))
          let query_matchers := ingress.metadata.annotations.map
            (fun anns => QueryMatchersList.mk
              (MatcherList.from_annotations anns QUERY_FILTERS_PFX))
          match process_rules env ctx ingress ingress_namespace gw_name
              gw_namespace desired_section_name header_matchers query_matchers
              ingress_spec.default_backend ingress_rules with
          | (ws, some e) => (.error e, ws)
          | (ws, none) => (.ok (Action.requeue 10), ws)

/-- `main::on_error`: every reconcile error is requeued after a fixed
30 seconds. -/
def on_error (_obj : Ingress) (_err : String) (_ctx : Context) : Action :=
  Action.requeue 30

/-! ## Leader election (main.rs, `lease_renew`) -/

/-- The result of `LeaseLock::try_acquire_or_renew`, restricted to the
field the loop reads. -/
structure LeaseLockResult where
  acquired_lease : Bool
deriving DecidableEq

/-- One iteration of the `lease_renew` loop: a successful attempt stores
`acquired_lease` into the shared flag, a failed attempt only logs and
leaves the flag unchanged. -/
def lease_step (is_leader : Bool)
    (attempt : Except String LeaseLockResult) : Bool :=
  match attempt with
  | .ok lease => lease.acquired_lease
  | .error _ => is_leader

/-- The `lease_renew` loop run over a finite prefix of attempt outcomes,
starting from the current flag value. -/
def lease_loop (init : Bool)
    (attempts : List (Except String LeaseLockResult)) : Bool :=
  attempts.foldl lease_step init

/-! ## Claims about the reconcile state machine -/

/-- Claim C8: a non-leader reconcile returns the 20-second requeue
immediately and performs zero writes, whatever the Ingress contains. -/
theorem C8_not_leader (env : ClusterEnv) (ingress : Ingress) (ctx : Context)
    (h : ctx.is_leader = false) :
    reconcile env ingress ctx = (.ok (Action.requeue 20), []) := by
  unfold reconcile
  rw [if_pos h]

/-- A minimal Ingress without a spec. -/
def ingMin : Ingress :=
  { metadata := { name := some "ing", namespace_ := some "default" }
    spec := none }

def argsDefault : I2GArgs :=
  { default_gateway_name := "gw"
    default_gateway_namespace := "default"
    link_to_ingress := false
    experimental := false
    skip_by_default := false }

def ctxNotLeader : Context :=
  { args := argsDefault, is_leader := false, hostname := "h" }

def ctxLeader : Context :=
  { args := argsDefault, is_leader := true, hostname := "h" }

/-- Witness for C8. -/
theorem C8_witness :
    reconcile envEmpty ingMin ctxNotLeader = (.ok (Action.requeue 20), []) :=
  C8_not_leader envEmpty ingMin ctxNotLeader rfl

/-- Claim C2 (amended): with the replica leading and translation not
skipped, a missing spec, a missing `rules` *field*, or a missing
namespace each fail the whole reconcile with an error and zero writes,
and `on_error` requeues after the fixed 30 seconds.  (A present-but-empty
rule list, contrary to the claim, passes validation — see the
counterexample.) -/
theorem C2_validation (env : ClusterEnv) (ingress : Ingress) (ctx : Context)
    (hl : ctx.is_leader = true)
    (hs : skip_translation_of ingress ctx = false)
    (hmiss : ingress.spec = none ∨
      ingress.spec.bind IngressSpec.rules = none ∨
      ingress.metadata.namespace_ = none) :
    (∃ e, reconcile env ingress ctx = (.error e, [])) ∧
    (∀ (i : Ingress) (e : String) (c : Context),
      on_error i e c = Action.requeue 30) := by
  refine ⟨?_, fun _ _ _ => rfl⟩
  rcases hmiss with hm | hm | hm
  · exact ⟨"Ingres doesn't have spec section",
      by simp [reconcile, hl, hs, hm]⟩
  · cases hspec : ingress.spec with
    | none =>
      exact ⟨"Ingres doesn't have spec section",
        by simp [reconcile, hl, hs, hspec]⟩
    | some ispec =>
      rw [hspec] at hm
      simp only [Option.some_bind] at hm
      exact ⟨"Ingress doesn't have any routing rules",
        by simp [reconcile, hl, hs, hspec, hm]⟩
  · cases hspec : ingress.spec with
    | none =>
      exact ⟨"Ingres doesn't have spec section",
        by simp [reconcile, hl, hs, hspec]⟩
    | some ispec =>
      cases hrule : ispec.rules with
      | none =>
        exact ⟨"Ingress doesn't have any routing rules",
          by simp [reconcile, hl, hs, hspec, hrule]⟩
      | some rules =>
        exact ⟨"Ingress doesn't have a namespace",
          by simp [reconcile, hl, hs, hspec, hrule, hm]⟩

/-- Witness for the amended C2 on an Ingress without a spec. -/
theorem C2_witness :
    (∃ e, reconcile envEmpty ingMin ctxLeader = (.error e, [])) ∧
    (∀ (i : Ingress) (e : String) (c : Context),
      on_error i e c = Action.requeue 30) :=
  C2_validation envEmpty ingMin ctxLeader rfl rfl (Or.inl rfl)

/-- An Ingress whose rule list is present but empty. -/
def ingEmptyRules : Ingress :=
  { metadata := { name := some "ing", namespace_ := some "default" }
    spec := some { default_backend := none, rules := some [] } }

/-- Claim C2 fails on its final clause: an Ingress with `rules: []`
(present but empty) passes validation — the reconcile completes with the
steady-state 10-second requeue instead of failing. -/
theorem C2_counterexample :
    reconcile envEmpty ingEmptyRules ctxLeader =
      (.ok (Action.requeue 10), []) ∧
    ¬ ∃ e, (reconcile envEmpty ingEmptyRules ctxLeader).1 = .error e := by
  have h : reconcile envEmpty ingEmptyRules ctxLeader =
      (.ok (Action.requeue 10), []) := by rfl
  refine ⟨h, ?_⟩
  rintro ⟨e, he⟩
  rw [h] at he
  exact absurd he (by simp)

/-- A host rule whose single path resolves (numeric port). -/
def httpSimple : HTTPIngressRuleValue :=
  ⟨[{ backend := ⟨some ⟨"svc", some ⟨none, some 80⟩⟩⟩, path := some "/",
      path_type := "Prefix" }]⟩

/-- A host rule whose single path has an unknown path type, so route
*building* fails for that host. -/
def httpBadType : HTTPIngressRuleValue :=
  ⟨[{ backend := ⟨some ⟨"svc", some ⟨none, some 80⟩⟩⟩, path := some "/",
      path_type := "Bogus" }]⟩

/-- Two resolvable hosts. -/
def ingTwoHosts : Ingress :=
  { metadata := { name := some "ing", namespace_ := some "default" }
    spec := some { default_backend := none, rules := some ([
      { host := some "a.com", http := some httpSimple },
      { host := some "b.com", http := some httpSimple }]) } }

/-- First host fails to build, second is fine. -/
def ingMixed : Ingress :=
  { metadata := { name := some "ing", namespace_ := some "default" }
    spec := some { default_backend := none, rules := some ([
      { host := some "a.com", http := some httpBadType },
      { host := some "b.com", http := some httpSimple }]) } }

/-- An environment in which applying the route of host `a.com` fails. -/
def envFailA : ClusterEnv := ⟨[], fun _ n => n == "ing-a-com-http"⟩

/-- Claim C1 fails as stated for *apply* failures: with two hosts and
the first host's patch rejected, the reconcile aborts with an error (the
`?` operator) instead of continuing to `b.com` — no write for the second
host is performed and the pass does not end in the steady-state
requeue. -/
theorem C1_counterexample :
    reconcile envFailA ingTwoHosts ctxLeader = (.error "apply failed", []) ∧
    (reconcile envFailA ingTwoHosts ctxLeader).1 ≠
      .ok (Action.requeue 10) := by
  have h : reconcile envFailA ingTwoHosts ctxLeader =
      (.error "apply failed", []) := by rfl
  refine ⟨h, ?_⟩
  rw [h]
  simp

theorem apply_http_routes_snd_none (env : ClusterEnv) (ctx : Context)
    (ing : Ingress) (ns : String) (routes : List HTTPRoute)
    (hpf : ∀ a b, env.patchFails a b = false) :
    (apply_http_routes env ctx ing ns routes).2 = none := by
  induction routes with
  | nil => rfl
  | cons route rest ih =>
    cases happly : apply_http_routes env ctx ing ns rest with
    | mk ws e =>
      rw [happly] at ih
      simp only at ih
      subst ih
      simp [apply_http_routes, hpf, happly]

theorem process_rules_snd_none (env : ClusterEnv) (ctx : Context)
    (ing : Ingress) (ns gw_name gw_ns : String) (sect : Option String)
    (hm : Option HeadersMatchersList) (qm : Option QueryMatchersList)
    (db : Option IngressBackend) (rules : List IngressRule)
    (hpf : ∀ a b, env.patchFails a b = false) :
    (process_rules env ctx ing ns gw_name gw_ns sect hm qm db rules).2 =
      none := by
  induction rules with
  | nil => rfl
  | cons rule rest ih =>
    cases hhost : rule.host with
    | none => simpa [process_rules, hhost] using ih
    | some host =>
      cases hhttp : rule.http with
      | some http =>
        cases hcr : create_http_routes env
            (mk_route_info ing ns gw_name gw_ns sect hm qm host) http with
        | error e => simpa [process_rules, hhost, hhttp, hcr] using ih
        | ok routes =>
          have hap := apply_http_routes_snd_none env ctx ing ns routes hpf
          cases happly : apply_http_routes env ctx ing ns routes with
          | mk ws e =>
            rw [happly] at hap
            simp only at hap
            subst hap
            simp [process_rules, hhost, hhttp, hcr, happly, ih]
      | none =>
        by_cases hexp : ctx.args.experimental = false
        · simpa [process_rules, hhost, hhttp, hexp] using ih
        · cases hdb : db with
          | none => simpa [process_rules, hhost, hhttp, hexp, hdb] using ih
          | some backend =>
            cases hsvc : backend.service with
            | none =>
              simpa [process_rules, hhost, hhttp, hexp, hdb, hsvc] using ih
            | some backend_svc =>
              cases hct : create_tcp_routes env
                  (mk_route_info ing ns gw_name gw_ns sect hm qm host)
                  backend_svc with
              | error e =>
                simpa [process_rules, hhost, hhttp, hexp, hdb, hsvc, hct]
                  using ih
              | ok route =>
                simpa [process_rules, hhost, hhttp, hexp, hdb, hsvc, hct,
                  hpf] using ih

/-- Claim C1 (amended): a failure *building* the routes of one host is
skipped and leaves the processing of the remaining hosts verbatim
unchanged; and when every apply patch succeeds, a leading, non-skipped
reconcile of a valid Ingress always completes with the steady-state
10-second requeue, even when some hosts failed to build.  (An apply
failure, by contrast, aborts the pass — see the counterexample.) -/
theorem C1_per_host_failures :
    (∀ (env : ClusterEnv) (ctx : Context) (ing : Ingress)
        (ns gw_name gw_ns : String) (sect : Option String)
        (hm : Option HeadersMatchersList) (qm : Option QueryMatchersList)
        (db : Option IngressBackend) (rule : IngressRule)
        (rest : List IngressRule) (host : String)
        (http : HTTPIngressRuleValue) (e : String),
      rule.host = some host → rule.http = some http →
      create_http_routes env
          (mk_route_info ing ns gw_name gw_ns sect hm qm host) http =
        .error e →
      process_rules env ctx ing ns gw_name gw_ns sect hm qm db
          (rule :: rest) =
        process_rules env ctx ing ns gw_name gw_ns sect hm qm db rest) ∧
    (∀ (env : ClusterEnv) (ingress : Ingress) (ctx : Context),
      ctx.is_leader = true → skip_translation_of ingress ctx = false →
      (∀ a b, env.patchFails a b = false) →
      ingress.spec ≠ none → ingress.spec.bind IngressSpec.rules ≠ none →
      ingress.metadata.namespace_ ≠ none →
      (reconcile env ingress ctx).1 = .ok (Action.requeue 10)) := by
  constructor
  · intro env ctx ing ns gw_name gw_ns sect hm qm db rule rest host http e
      hhost hhttp hcr
    simp [process_rules, hhost, hhttp, hcr]
  · intro env ingress ctx hl hs hpf hspec hrules hns
    obtain ⟨ispec, hspec'⟩ := Option.ne_none_iff_exists'.mp hspec
    rw [hspec'] at hrules
    simp only [Option.some_bind] at hrules
    obtain ⟨irules, hrules'⟩ := Option.ne_none_iff_exists'.mp hrules
    obtain ⟨ns0, hns'⟩ := Option.ne_none_iff_exists'.mp hns
    have hsnd := process_rules_snd_none env ctx ingress ns0
      ((getAnn ingress.metadata GATEWAY_NAME).getD
        ctx.args.default_gateway_name)
      ((getAnn ingress.metadata GATEWAY_NAMESPACE).getD
        ctx.args.default_gateway_namespace)
      (getAnn ingress.metadata DESIRED_SECTION)
      (ingress.metadata.annotations.map
        (fun anns => HeadersMatchersList.mk
          (MatcherList.from_annotations anns HEADER_FILTERS_PFX)))
      (ingress.metadata.annotations.map
        (fun anns => QueryMatchersList.mk
          (MatcherList.from_annotations anns QUERY_FILTERS_PFX)))
      ispec.default_backend irules hpf
    cases hpr : process_rules env ctx ingress ns0
        ((getAnn ingress.metadata GATEWAY_NAME).getD
          ctx.args.default_gateway_name)
        ((getAnn ingress.metadata GATEWAY_NAMESPACE).getD
          ctx.args.default_gateway_namespace)
        (getAnn ingress.metadata DESIRED_SECTION)
        (ingress.metadata.annotations.map
          (fun anns => HeadersMatchersList.mk
            (MatcherList.from_annotations anns HEADER_FILTERS_PFX)))
        (ingress.metadata.annotations.map
          (fun anns => QueryMatchersList.mk
            (MatcherList.from_annotations anns QUERY_FILTERS_PFX)))
        ispec.default_backend irules with
    | mk ws e =>
      rw [hpr] at hsnd
      simp only at hsnd
      subst hsnd
      simp [reconcile, hl, hs, hspec', hrules', hns', hpr]

/-- Witness for the amended C1: the first host of `ingMixed` fails to
build (unknown path type) and is skipped verbatim; the pass still ends
in the steady-state requeue. -/
theorem C1_witness :
    (process_rules envEmpty ctxLeader ingMixed "default" "gw" "default"
        none none none none
        [{ host := some "a.com", http := some httpBadType },
         { host := some "b.com", http := some httpSimple }] =
      process_rules envEmpty ctxLeader ingMixed "default" "gw" "default"
        none none none none
        [{ host := some "b.com", http := some httpSimple }]) ∧
    (reconcile envEmpty ingMixed ctxLeader).1 = .ok (Action.requeue 10) :=
  ⟨C1_per_host_failures.1 envEmpty ctxLeader ingMixed "default" "gw"
      "default" none none none none
      { host := some "a.com", http := some httpBadType }
      [{ host := some "b.com", http := some httpSimple }]
      "a.com" httpBadType "Unknown path type: Bogus" rfl rfl (by rfl),
    C1_per_host_failures.2 envEmpty ingMixed ctxLeader rfl rfl
      (fun _ _ => rfl) (by decide) (by decide) (by decide)⟩

/-! ## Claim about the leader election loop -/

/-- Claim C9: a successful acquire-or-renew stores whether this holder
holds the lease; a failed attempt leaves the flag at its previous value;
hence any run of consecutive failures — in particular two — leaves the
flag unchanged from its pre-failure value. -/
theorem C9_lease_renew :
    (∀ (flag : Bool) (r : LeaseLockResult),
      lease_step flag (.ok r) = r.acquired_lease) ∧
    (∀ (flag : Bool) (e : String), lease_step flag (.error e) = flag) ∧
    (∀ (init : Bool) (attempts : List (Except String LeaseLockResult)),
      (∀ a ∈ attempts, a.isOk = false) → lease_loop init attempts = init) ∧
    (∀ (init : Bool) (e1 e2 : String),
      lease_loop init [.error e1, .error e2] = init) := by
  refine ⟨fun _ _ => rfl, fun _ _ => rfl, ?_, fun _ _ _ => rfl⟩
  intro init attempts h
  induction attempts generalizing init with
  | nil => rfl
  | cons a rest ih =>
    have ha := h a (List.mem_cons_self _ _)
    cases a with
    | ok r => simp [Except.isOk, Except.toBool] at ha
    | error e =>
      rw [lease_loop, List.foldl_cons]
      exact ih init (fun b hb => h b (List.mem_cons_of_mem _ hb))

/-- Witness for C9: two consecutive failures leave a concrete flag
unchanged. -/
theorem C9_witness :
    lease_loop true [.error "boom", .error "boom again"] = true :=
  C9_lease_renew.2.2.1 true [.error "boom", .error "boom again"] (by decide)

end I2G
